import Mathlib

/-!
Verification of the resume-structure classifier of PdfMasterTool
(`server/pdf_converter.py` and its sibling variants).

The Python code is shallowly embedded: strings are modelled as `String` /
`List Char`, Python's `str` helpers (`split`, `strip`, `lower`, `istitle`,
`isalpha`, `in`, `startswith`) are reproduced as executable Lean functions
over `List Char`, restricted to the character semantics actually exercised
by the repository's data (ASCII letters and digits plus the bullet and dash
glyphs, for which Python's Unicode-aware predicates agree with the ASCII
ones modelled here).  Fallible/IO-bound steps (file existence, the two PDF
extraction libraries, the Word writer) are modelled as explicit inputs to
the embedded control flow.
-/

namespace PdfMaster

/-- Python `str.split()` (split on whitespace runs, dropping empty pieces),
auxiliary accumulator version. -/
def splitWsAux : List Char → List Char → List (List Char)
  | [], acc => if acc.isEmpty then [] else [acc.reverse]
  | c :: cs, acc =>
    if c.isWhitespace then
      if acc.isEmpty then splitWsAux cs [] else acc.reverse :: splitWsAux cs []
    else splitWsAux cs (c :: acc)

/-- Python `str.split()` on a line given as a character list. -/
def pySplit (cs : List Char) : List (List Char) := splitWsAux cs []

/-- Python `str.lower()`. -/
def pyLower (cs : List Char) : List Char := cs.map Char.toLower

/-- Python `str.lstrip()`. -/
def pyLStrip (cs : List Char) : List Char := cs.dropWhile Char.isWhitespace

/-- Python `str.strip()`. -/
def pyStrip (cs : List Char) : List Char :=
  ((cs.dropWhile Char.isWhitespace).reverse.dropWhile Char.isWhitespace).reverse

/-- Python's substring test `needle in hay`. -/
def isSubstring (needle : List Char) : List Char → Bool
  | [] => needle.isEmpty
  | c :: cs => needle.isPrefixOf (c :: cs) || isSubstring needle cs

/-- Python `str.isalpha()`: non-empty and every character alphabetic. -/
def pyIsAlphaStr (cs : List Char) : Bool := !cs.isEmpty && cs.all Char.isAlpha

/-- Python `str.istitle()`, accumulator version: `prev` records whether the
previous character was cased, `found` whether any cased character was seen. -/
def pyIsTitleAux : List Char → Bool → Bool → Bool
  | [], _, found => found
  | c :: cs, prev, found =>
    if c.isUpper then
      if prev then false else pyIsTitleAux cs true true
    else if c.isLower then
      if prev then pyIsTitleAux cs true found else false
    else pyIsTitleAux cs false found

/-- Python `str.istitle()`. -/
def pyIsTitle (cs : List Char) : Bool := pyIsTitleAux cs false false

/-- Python `str.isupper()`: at least one cased character and no lowercase one. -/
def pyIsUpper (cs : List Char) : Bool :=
  cs.any (fun c => c.isUpper || c.isLower) && cs.all (fun c => !c.isLower)

/-! ## `classify_resume_line` (`server/pdf_converter.py`, lines 54-92)

Each `if` block of the Python function becomes one named rule predicate;
`classifyCore` chains them in the source's order. -/

/-- First rule of `classify_resume_line`: the "name" test
(`is_first_line or (len(line.split()) <= 3 and
line.replace(' ','').replace('.','').isalpha() and line.istitle() and
not any(word.lower() in [...] for word in line.split()))`). -/
def nameRule (cs : List Char) (is_first_line : Bool) : Bool :=
  is_first_line ||
    (decide ((pySplit cs).length ≤ 3) &&
     pyIsAlphaStr ((cs.filter (fun c => c ≠ ' ')).filter (fun c => c ≠ '.')) &&
     pyIsTitle cs &&
     !((pySplit cs).any (fun w =>
        ["experience", "education", "skills", "summary"].any
          (fun g => pyLower w = g.toList))))

/-- The `'@'/'http'/'linkedin'/'behance'` indicator half of the contact rule. -/
def contactIndicator (cs : List Char) : Bool :=
  ["@", "http", "linkedin", "behance"].any
    (fun s => isSubstring s.toList (pyLower cs))

/-- Second rule: the "contact" test
(`any(indicator in line.lower() ...) or
any(char.isdigit() for char in line) and len(line.split()) <= 8`). -/
def contactRule (cs : List Char) : Bool :=
  contactIndicator cs ||
    (cs.any Char.isDigit && decide ((pySplit cs).length ≤ 8))

/-- Third rule: the "section header" test over the `major_sections` keywords. -/
def sectionRule (cs : List Char) : Bool :=
  ["work experience", "experience", "education", "skills", "projects",
   "summary", "objective"].any
    (fun s => isSubstring s.toList (pyLower cs))

/-- Fourth rule: the "job title" test. -/
def jobTitleRule (cs : List Char) : Bool :=
  ["designer", "developer", "engineer", "manager", "analyst"].any
    (fun t => isSubstring t.toList (pyLower cs)) &&
  decide ((pySplit cs).length ≤ 4) &&
  !((pySplit cs).any (fun w =>
      ["solutions", "technologies", "systems", "inc", "ltd"].any
        (fun g => pyLower w = g.toList))) &&
  !cs.any Char.isDigit

/-- Fifth rule: the "company/date" test
(`any(str(year) in line for year in range(2015, 2025)) and
any(indicator in line.lower() for indicator in [...])`). -/
def companyDateRule (cs : List Char) : Bool :=
  (["2015", "2016", "2017", "2018", "2019", "2020", "2021", "2022", "2023",
    "2024"].any (fun y => isSubstring y.toList cs)) &&
  (["solutions", "technologies", "present", "remote", "bangladesh",
    "lahore"].any (fun s => isSubstring s.toList (pyLower cs)))

/-- Sixth rule: the "list item" test
(`line.lstrip().startswith(('•', '-', '*', '▪', '◦'))`). -/
def listItemRule (cs : List Char) : Bool :=
  match pyLStrip cs with
  | [] => false
  | c :: _ => c ∈ ['•', '-', '*', '▪', '◦']

/-- The rule chain of `classify_resume_line`, first match wins. -/
def classifyCore (cs : List Char) (is_first_line : Bool) : String :=
  if nameRule cs is_first_line then "name"
  else if contactRule cs then "contact"
  else if sectionRule cs then "section_header"
  else if jobTitleRule cs then "job_title"
  else if companyDateRule cs then "company_date"
  else if listItemRule cs then "list_item"
  else "paragraph"

/-- Function `classify_resume_line` from `server/pdf_converter.py`: returns the
`'type'` field of the dict the Python function returns (the function sets
no other field on any path taken here). -/
def classify_resume_line (line : String) (is_first_line : Bool) : String :=
  classifyCore line.toList is_first_line

/-- Function `get_heading_level` from `server/pdf_converter.py` (lines 413-420). -/
def get_heading_level (text : String) : Nat :=
  let cs := text.toList
  if ["experience", "education", "skills"].any
      (fun w => isSubstring w.toList (pyLower cs)) then 1
  else if cs.any Char.isDigit && isSubstring "20".toList cs then 2
  else 2

/-! ## `merge_related_content` (`server/pdf_converter.py`, lines 94-141) -/

/-- One entry of the `structured_content` list: the dicts built by
`extract_text_with_pdfplumber` / `merge_related_content` (keys `text`,
`type`, `level`, `formatting`; a missing key is modelled as
`none` / `[]`). -/
structure CNode where
  text : String
  type : String
  level : Option Nat := none
  formatting : List (String × String) := []
  deriving DecidableEq, Repr

/-- Python `' '.join(parts)`. -/
def joinSpace : List String → String
  | [] => ""
  | [s] => s
  | s :: t :: rest => s ++ " " ++ joinSpace (t :: rest)

/-- The inner `while` of the paragraph branch of `merge_related_content`:
keep taking following `paragraph` nodes while the space-joined text stays
under 500 characters; returns the accumulated texts and the remaining
nodes. -/
def takeParas (acc : List String) : List CNode → List String × List CNode
  | [] => (acc, [])
  | m :: ms =>
    if m.type = "paragraph" ∧ (joinSpace (acc ++ [m.text])).length < 500 then
      takeParas (acc ++ [m.text]) ms
    else (acc, m :: ms)

/-- Function `merge_related_content`: consecutive `contact` nodes are joined
unconditionally; consecutive `paragraph` nodes are joined while the joined
text stays under 500 characters; every other node is appended as-is. -/
def merge_related_content : List CNode → List CNode
  | [] => []
  | n :: rest =>
    if n.type = "contact" then
      ⟨joinSpace (n.text ::
          (rest.takeWhile (fun m => m.type = "contact")).map CNode.text),
        "contact", none, []⟩ ::
        merge_related_content (rest.dropWhile (fun m => m.type = "contact"))
    else if n.type = "paragraph" then
      ⟨joinSpace (takeParas [n.text] rest).1, "paragraph", none, []⟩ ::
        merge_related_content (takeParas [n.text] rest).2
    else
      n :: merge_related_content rest
  termination_by l => l.length
  decreasing_by
  · simp only [List.length_cons, Nat.lt_succ_iff]
    exact (List.dropWhile_suffix _).length_le
  · simp only [List.length_cons, Nat.lt_succ_iff]
    suffices h : ∀ (acc : List String) (l : List CNode),
        (takeParas acc l).2.length ≤ l.length from h _ _
    intro acc l
    induction l generalizing acc with
    | nil => simp [takeParas]
    | cons m ms ih =>
      rw [takeParas]
      split
      · exact le_trans (ih _) (Nat.le_succ _)
      · exact le_refl _
  · simp [Nat.lt_succ_iff]

/-! ## The line-keeping step of `extract_text_with_pdfplumber` (lines 33-36)
and the `meaningful_content` filter of `convert_pdf_to_word` (lines 802-809) -/

/-- The per-line keep test of `extract_text_with_pdfplumber`:
`line = line.strip(); if not line or len(line) < 5: continue`.  Returns the
stripped lines that survive. -/
def extract_kept_lines (lines : List String) : List String :=
  (lines.map (fun s => String.mk (pyStrip s.toList))).filter
    (fun t => !t.toList.isEmpty && !decide (t.toList.length < 5))

/-- The `meaningful_content` filter of `convert_pdf_to_word`:
`if len(item['text'].strip()) > 8`. -/
def meaningful_filter (l : List CNode) : List CNode :=
  l.filter (fun item => decide (8 < (pyStrip item.text.toList).length))

/-- Function `detect_heading` from `server/pdf_converter.py` (lines 397-411); its
`lines` parameter is unused by the body and omitted. -/
def detect_heading (text : String) : Bool :=
  let cs := text.toList
  if cs.isEmpty || decide (200 < cs.length) then false
  else
    decide (2 ≤ ([pyIsUpper cs,
      decide ((pySplit cs).length ≤ 8),
      ["experience", "education", "skills", "projects", "work",
       "employment"].any (fun w => isSubstring w.toList (pyLower cs)),
      (match cs.getLast? with | some c => c = ':' | none => false),
      cs.any Char.isDigit && isSubstring "20".toList cs].count true))

/-- The node built for a PyMuPDF fallback paragraph inside
`convert_pdf_to_word` (`'type': 'heading' if detect_heading(...) else
'paragraph', 'level': 2`). -/
def mkFallbackNode (para : String) : CNode :=
  { text := para,
    type := if detect_heading para then "heading" else "paragraph",
    level := some 2 }

/-- Result of the embedded `convert_pdf_to_word`: the JSON-dict outcome plus
whether the Word-writer collaborator (`create_word_document`) was invoked at
all. -/
structure ConvOutcome where
  success : Bool
  message : String
  writerInvoked : Bool
  deriving DecidableEq, Repr

/-- Function `convert_pdf_to_word` (lines 777-826), shallowly embedded over the
outcomes of its collaborators: `fileExists` models `os.path.exists`,
`plumber` the value of `extract_text_with_pdfplumber` (`none` for its
exception path, which Python then treats exactly like an empty list),
`pymupdf` the value of `extract_text_with_pymupdf`, and `writerOk` the
boolean returned by `create_word_document`.  `message` carries the
`error` string on failure and the `message` string on success. -/
def convert_pdf_to_word (fileExists : Bool) (plumber : Option (List CNode))
    (pymupdf : Option (List String)) (writerOk : Bool) : ConvOutcome :=
  if !fileExists then ⟨false, "PDF file not found", false⟩
  else
    let sc0 : List CNode := (plumber.getD [])
    let sc : List CNode :=
      if sc0.isEmpty then
        match pymupdf with
        | some paras => if paras.isEmpty then [] else paras.map mkFallbackNode
        | none => []
      else sc0
    if sc.isEmpty then
      ⟨false, "No text found in PDF. The PDF may be image-based or encrypted.",
       false⟩
    else
      let meaningful := meaningful_filter sc
      if meaningful.isEmpty then
        ⟨false, "No substantial text content found in PDF", false⟩
      else if writerOk then
        ⟨true, "Successfully converted PDF to Word. Created " ++
          toString (meaningful.filter (fun i => i.type = "heading")).length ++
          " headings and " ++
          toString (meaningful.filter (fun i => i.type = "paragraph")).length ++
          " paragraphs.", true⟩
      else ⟨false, "Failed to create Word document", true⟩

/-! ## `extract_formatted_lines` (`server/pdf_converter.py`, lines 267-303) -/

/-- One pdfplumber character record: required keys `text`, `y0`, `x0`, and
the optional keys `size` and `fontname` read with `.get`. -/
structure PdfChar where
  text : String
  y0 : ℚ
  x0 : ℚ
  size : Option ℚ := none
  fontname : Option String := none
  deriving DecidableEq, Repr

/-- Python `round(q)` to an integer: round-half-to-even. -/
def pyRound0 (q : ℚ) : ℤ :=
  let n := ⌊q⌋
  if q - n < 1/2 then n
  else if 1/2 < q - n then n + 1
  else if n % 2 = 0 then n else n + 1

/-- Python `round(q, 1)` as used for the line-grouping key. -/
def round1 (q : ℚ) : ℚ := (pyRound0 (q * 10) : ℚ) / 10

/-- The record built for one extracted line. -/
structure LineRec where
  text : String
  font_size : ℚ
  is_bold : Bool
  y_position : ℚ
  char_count : Nat
  deriving DecidableEq, Repr

/-- The characters grouped into the line keyed by rounded coordinate `y`
(`lines[y]`, in original order). -/
def lineCharsAt (chars : List PdfChar) (y : ℚ) : List PdfChar :=
  chars.filter (fun c => round1 c.y0 = y)

/-- Python `sorted(lines[y], key=lambda c: c['x0'])`: the group sorted
left-to-right (Python's `sorted` is stable, as is insertion sort). -/
def sortedLineCharsAt (chars : List PdfChar) (y : ℚ) : List PdfChar :=
  (lineCharsAt chars y).insertionSort (fun c d => c.x0 ≤ d.x0)

/-- Python `[c.get('size', 12) for c in line_chars if c.get('size')]`: the sizes
that are present and truthy (Python treats a 0 size as absent). -/
def truthySizes (cs : List PdfChar) : List ℚ :=
  cs.filterMap (fun c => match c.size with
    | some s => if s = 0 then none else some s
    | none => none)

/-- Python `[c.get('fontname', '') for c in line_chars if c.get('fontname')]`. -/
def truthyFontNames (cs : List PdfChar) : List String :=
  cs.filterMap (fun c => match c.fontname with
    | some n => if n = "" then none else some n
    | none => none)

/-- The body of the per-`y` loop of `extract_formatted_lines`: sort the
group left-to-right, join the texts, average the truthy `size` values
(default 12), detect boldness from truthy `fontname` values. -/
def mkLine (chars : List PdfChar) (y : ℚ) : LineRec :=
  { text := String.mk (pyStrip
      (String.join ((sortedLineCharsAt chars y).map PdfChar.text)).toList),
    font_size := if (truthySizes (sortedLineCharsAt chars y)).isEmpty then 12
      else (truthySizes (sortedLineCharsAt chars y)).sum /
        (truthySizes (sortedLineCharsAt chars y)).length,
    is_bold := (truthyFontNames (sortedLineCharsAt chars y)).any
      (fun n => isSubstring "bold".toList (pyLower n.toList)),
    y_position := y,
    char_count := (sortedLineCharsAt chars y).length }

/-- Function `extract_formatted_lines`: group by `round(y0, 1)` (dict insertion
order = first-occurrence order), then emit lines for the keys sorted in
descending order. -/
def extract_formatted_lines (chars : List PdfChar) : List LineRec :=
  if chars.isEmpty then []
  else ((chars.map (fun c => round1 c.y0)).dedup.insertionSort
    (fun a b => b ≤ a)).map (mkLine chars)

/-- Spec-side font-size contract (spec 4.1): the arithmetic mean of the
per-character size attributes present in the group, defaulting to the
nominal 12 when no character carries a size attribute. -/
def meanSizeOfChars (cs : List PdfChar) : ℚ :=
  let sizes := cs.filterMap PdfChar.size
  if sizes.isEmpty then 12 else sizes.sum / sizes.length

/-- Nodes of a type other than `contact`/`paragraph` (the Python
`# Keep other types as-is` branch of `merge_related_content`). -/
def otherType (n : CNode) : Bool :=
  !decide (n.type = "contact") && !decide (n.type = "paragraph")

/-- Concrete characters for the C7 witness: two sized characters on one
line, one unsized character on another. -/
def witnessChars : List PdfChar :=
  [⟨"A", 1, 0, some 10, some "Calibri-Bold"⟩,
   ⟨"B", 1, 1, some 14, none⟩,
   ⟨"C", 2, 0, none, none⟩]

/-- A 250-character text for exhibiting an unbounded contact merge. -/
def bigText : String := String.mk (List.replicate 250 'a')

/-- A contact node carrying `bigText`. -/
def bigContact : CNode := ⟨bigText, "contact", none, []⟩

/-- A 200-character text used in the paragraph-merge example. -/
def paraText (c : Char) : String := String.mk (List.replicate 200 c)

/-- A paragraph node carrying 200 characters. -/
def bigPara (c : Char) : CNode := ⟨paraText c, "paragraph", none, []⟩

/-! ## Helper lemmas -/

/-- Lemma on `joinSpace` length bookkeeping: joining inserts one separator between
adjacent parts. -/
theorem joinSpace_length_succ :
    ∀ l : List String, l ≠ [] →
      (joinSpace l).length + 1 = (l.map (fun s => s.length + 1)).sum := by
  intro l
  induction l with
  | nil => intro h; exact absurd rfl h
  | cons s rest ih =>
    intro _
    cases rest with
    | nil => simp [joinSpace]
    | cons s2 r2 =>
      rw [joinSpace]
      have h2 := ih (by simp)
      have hsp : (" " : String).length = 1 := rfl
      simp only [List.map_cons, List.sum_cons] at *
      rw [String.length_append, String.length_append, hsp]
      omega

/-- Appending one more part to a non-empty join adds its length plus one. -/
theorem joinSpace_length_append (acc : List String) (t : String)
    (h : acc ≠ []) :
    (joinSpace (acc ++ [t])).length =
      (joinSpace acc).length + 1 + t.length := by
  have h1 := joinSpace_length_succ (acc ++ [t]) (by simp)
  have h2 := joinSpace_length_succ acc h
  rw [List.map_append, List.sum_append] at h1
  simp only [List.map_cons, List.map_nil, List.sum_cons, List.sum_nil] at h1
  omega

/-- The join of a list is at least as long as its first part. -/
theorem joinSpace_head_le (s : String) (rest : List String) :
    s.length ≤ (joinSpace (s :: rest)).length := by
  cases rest with
  | nil => exact le_refl _
  | cons s2 r2 =>
    rw [joinSpace, String.length_append, String.length_append]
    omega

/-- Function `takeParas` splits its input into a consumed run of paragraph nodes
and the remainder, and returns the accumulator extended by the consumed
texts. -/
theorem takeParas_split (acc : List String) (l : List CNode) :
    ∃ pre : List CNode, l = pre ++ (takeParas acc l).2 ∧
      (∀ m ∈ pre, m.type = "paragraph") ∧
      (takeParas acc l).1 = acc ++ pre.map CNode.text := by
  induction l generalizing acc with
  | nil => exact ⟨[], by simp [takeParas]⟩
  | cons m ms ih =>
    rw [takeParas]
    split
    · rename_i hcond
      obtain ⟨pre, hsplit, hall, hfst⟩ := ih (acc ++ [m.text])
      refine ⟨m :: pre, ?_, ?_, ?_⟩
      · rw [List.cons_append, ← hsplit]
      · intro x hx
        rcases List.mem_cons.mp hx with rfl | hx
        · exact hcond.1
        · exact hall x hx
      · rw [hfst]
        simp
    · exact ⟨[], by simp, by simp, by simp⟩

/-- Whenever `takeParas` actually consumed something, the accumulated join
stays under 500 characters (each extension was guarded by the bound). -/
theorem takeParas_fst_bound (acc : List String) (l : List CNode) :
    (takeParas acc l).1 = acc ∨
      (joinSpace (takeParas acc l).1).length < 500 := by
  induction l generalizing acc with
  | nil => left; rfl
  | cons m ms ih =>
    rw [takeParas]
    split
    · rename_i hcond
      rcases ih (acc ++ [m.text]) with h | h
      · right
        rw [h]
        exact hcond.2
      · right
        exact h
    · left
      rfl

/-- The head of `dropWhile p l` fails `p`. -/
theorem dropWhile_head_not (p : CNode → Bool) (l : List CNode) :
    ∀ x, (l.dropWhile p).head? = some x → p x = false := by
  induction l with
  | nil => intro x h; simp [List.dropWhile] at h
  | cons a t ih =>
    intro x h
    rw [List.dropWhile_cons] at h
    split at h
    · exact ih x h
    · rename_i hpa
      simp only [List.head?_cons, Option.some.injEq] at h
      rw [← h]
      exact Bool.not_eq_true _ ▸ (by simpa using hpa)

/-- A character of a string is a one-character substring of it. -/
theorem isSubstring_singleton_of_mem {c : Char} {l : List Char} (h : c ∈ l) :
    isSubstring [c] l = true := by
  induction l with
  | nil => cases h
  | cons a t ih =>
    rw [isSubstring]
    rcases List.mem_cons.mp h with rfl | h
    · simp [List.isPrefixOf]
    · simp [ih h]

/-- When `takeParas` leaves a remainder, its head refused the guard:
either it is not a paragraph or appending it would reach 500 characters. -/
theorem takeParas_stop (acc : List String) (l : List CNode) :
    (takeParas acc l).2 = [] ∨
      ∃ x xs, (takeParas acc l).2 = x :: xs ∧
        ¬(x.type = "paragraph" ∧
          (joinSpace ((takeParas acc l).1 ++ [x.text])).length < 500) := by
  induction l generalizing acc with
  | nil => left; rfl
  | cons m ms ih =>
    rw [takeParas]
    split
    · exact ih _
    · rename_i hcond
      right
      exact ⟨m, ms, rfl, hcond⟩

/-- Merging a `contact` node whose successor (if any) is not a contact
produces just that node (with `level` dropped and empty formatting). -/
theorem merge_cons_contact_alone (c : CNode) (L : List CNode)
    (hc : c.type = "contact")
    (hL : ∀ x xs, L = x :: xs → x.type ≠ "contact") :
    merge_related_content (c :: L) =
      ⟨c.text, "contact", none, []⟩ :: merge_related_content L := by
  have htw : L.takeWhile (fun m => m.type = "contact") = [] := by
    cases L with
    | nil => rfl
    | cons x xs => simp [List.takeWhile_cons, hL x xs rfl]
  have hdw : L.dropWhile (fun m => m.type = "contact") = L := by
    cases L with
    | nil => rfl
    | cons x xs => simp [List.dropWhile_cons, hL x xs rfl]
  rw [merge_related_content, if_pos hc, htw, hdw]
  rfl

/-- Merging a `paragraph` node whose accumulation immediately stops
produces just that node (with `level` dropped and empty formatting). -/
theorem merge_cons_para_alone (c : CNode) (L : List CNode)
    (hc : c.type = "paragraph")
    (hL : takeParas [c.text] L = ([c.text], L)) :
    merge_related_content (c :: L) =
      ⟨c.text, "paragraph", none, []⟩ :: merge_related_content L := by
  rw [merge_related_content, if_neg (by simp [hc]), if_pos hc, hL]
  rfl

/-- The head of the merge of a paragraph-headed list is a paragraph node
whose text contains the original head text as its first joined part. -/
theorem merge_para_head_ge (r : CNode) (rs : List CNode)
    (hr : r.type = "paragraph") :
    ∀ x xs, merge_related_content (r :: rs) = x :: xs →
      x.type = "paragraph" ∧ r.text.length ≤ x.text.length := by
  intro x xs hm
  rw [merge_related_content, if_neg (by simp [hr]), if_pos hr] at hm
  obtain ⟨hx, -⟩ := List.cons_eq_cons.mp hm
  subst hx
  refine ⟨rfl, ?_⟩
  obtain ⟨pre, -, -, hfst⟩ := takeParas_split [r.text] rs
  show r.text.length ≤ (joinSpace (takeParas [r.text] rs).1).length
  rw [hfst]
  exact joinSpace_head_le r.text (pre.map CNode.text)

/-- The merge pass preserves the type of the head node. -/
theorem merge_head_type (l : List CNode) :
    (merge_related_content l).head?.map CNode.type =
      l.head?.map CNode.type := by
  cases l with
  | nil => simp [merge_related_content]
  | cons n rest =>
    rw [merge_related_content]
    split
    · rename_i hc
      simp [hc]
    · split
      · rename_i hp
        simp [hp]
      · simp

/-- The merge pass leaves the subsequence of nodes of other types (neither
`contact` nor `paragraph`) untouched: same nodes, same order. -/
theorem merge_filter_other :
    ∀ l : List CNode,
      (merge_related_content l).filter otherType = l.filter otherType := by
  suffices H : ∀ (k : Nat) (l : List CNode), l.length ≤ k →
      (merge_related_content l).filter otherType = l.filter otherType by
    intro l
    exact H l.length l le_rfl
  intro k
  induction k with
  | zero =>
    intro l hl
    have hnil : l = [] := List.length_eq_zero.mp (Nat.le_zero.mp hl)
    subst hnil
    simp [merge_related_content]
  | succ k ih =>
    intro l hl
    cases l with
    | nil => simp [merge_related_content]
    | cons n rest =>
      simp only [List.length_cons, Nat.succ_le_succ_iff] at hl
      rw [merge_related_content]
      split
      · rename_i hc
        have hhead : otherType ⟨joinSpace (n.text ::
            (rest.takeWhile (fun m => m.type = "contact")).map CNode.text),
            "contact", none, []⟩ = false := by
          simp [otherType]
        have hn : otherType n = false := by
          simp [otherType, hc]
        rw [List.filter_cons, List.filter_cons, hhead, hn]
        simp only [Bool.false_eq_true, if_false]
        have hrest : rest.filter otherType =
            (rest.dropWhile (fun m => m.type = "contact")).filter otherType := by
          conv_lhs => rw [← List.takeWhile_append_dropWhile
            (p := fun m => m.type = "contact") (l := rest)]
          rw [List.filter_append]
          have htw : (rest.takeWhile
              (fun m => m.type = "contact")).filter otherType = [] := by
            rw [List.filter_eq_nil_iff]
            intro x hx
            have hx' := List.mem_takeWhile_imp hx
            simp only [decide_eq_true_eq] at hx'
            simp [otherType, hx']
          rw [htw, List.nil_append]
        rw [hrest]
        exact ih _ (le_trans ((List.dropWhile_suffix _).length_le) hl)
      · split
        · rename_i hc hp
          obtain ⟨pre, hsplit, hall, _⟩ := takeParas_split [n.text] rest
          have hhead : otherType ⟨joinSpace (takeParas [n.text] rest).1,
              "paragraph", none, []⟩ = false := by
            simp [otherType]
          have hn : otherType n = false := by
            simp [otherType, hp]
          rw [List.filter_cons, List.filter_cons, hhead, hn]
          simp only [Bool.false_eq_true, if_false]
          have hrest : rest.filter otherType =
              (takeParas [n.text] rest).2.filter otherType := by
            conv_lhs => rw [hsplit]
            rw [List.filter_append]
            have hpre : pre.filter otherType = [] := by
              rw [List.filter_eq_nil_iff]
              intro x hx
              simp [otherType, hall x hx]
            rw [hpre, List.nil_append]
          rw [hrest]
          have hlen : (takeParas [n.text] rest).2.length ≤ rest.length := by
            have := congrArg List.length hsplit
            rw [List.length_append] at this
            omega
          exact ih _ (le_trans hlen hl)
        · rename_i hc hp
          have hn : otherType n = true := by
            simp [otherType, hc, hp]
          rw [List.filter_cons, List.filter_cons, hn]
          simp only [if_true]
          rw [ih _ hl]

/-- Every `paragraph` node produced by the merge pass either stays under
500 characters or is a single unmerged input line. -/
theorem merge_paragraph_bound :
    ∀ (l : List CNode) (n : CNode), n ∈ merge_related_content l →
      n.type = "paragraph" →
      n.text.length < 500 ∨ n.text ∈ l.map CNode.text := by
  suffices H : ∀ (k : Nat) (l : List CNode), l.length ≤ k →
      ∀ n ∈ merge_related_content l, n.type = "paragraph" →
        n.text.length < 500 ∨ n.text ∈ l.map CNode.text by
    intro l n hn hp
    exact H l.length l le_rfl n hn hp
  intro k
  induction k with
  | zero =>
    intro l hl n hn _
    have hnil : l = [] := List.length_eq_zero.mp (Nat.le_zero.mp hl)
    subst hnil
    simp [merge_related_content] at hn
  | succ k ih =>
    intro l hl n hn hp
    cases l with
    | nil => simp [merge_related_content] at hn
    | cons m rest =>
      simp only [List.length_cons, Nat.succ_le_succ_iff] at hl
      rw [merge_related_content] at hn
      split at hn
      · rcases List.mem_cons.mp hn with rfl | hn'
        · simp at hp
        · have hlen : (rest.dropWhile
              (fun x => x.type = "contact")).length ≤ rest.length :=
            (List.dropWhile_suffix _).length_le
          rcases ih _ (le_trans hlen hl) n hn' hp with h | h
          · exact Or.inl h
          · right
            obtain ⟨x, hx, hxt⟩ := List.mem_map.mp h
            exact List.mem_map.mpr
              ⟨x, List.mem_cons_of_mem _ ((List.dropWhile_suffix _).subset hx),
               hxt⟩
      · split at hn
        · rename_i hc hpara
          obtain ⟨pre, hsplit, _, hfst⟩ := takeParas_split [m.text] rest
          rcases List.mem_cons.mp hn with rfl | hn'
          · rcases takeParas_fst_bound [m.text] rest with h | h
            · right
              show joinSpace (takeParas [m.text] rest).1 ∈ _
              rw [h]
              exact List.mem_map.mpr ⟨m, List.mem_cons_self _ _, rfl⟩
            · exact Or.inl h
          · have hlen : (takeParas [m.text] rest).2.length ≤ rest.length := by
              have := congrArg List.length hsplit
              rw [List.length_append] at this
              omega
            rcases ih _ (le_trans hlen hl) n hn' hp with h | h
            · exact Or.inl h
            · right
              obtain ⟨x, hx, hxt⟩ := List.mem_map.mp h
              have hxmem : x ∈ rest := by
                rw [hsplit]
                exact List.mem_append.mpr (Or.inr hx)
              exact List.mem_map.mpr
                ⟨x, List.mem_cons_of_mem _ hxmem, hxt⟩
        · rename_i hc hpara
          rcases List.mem_cons.mp hn with rfl | hn'
          · exact absurd hp (by simpa using hpara)
          · rcases ih _ hl n hn' hp with h | h
            · exact Or.inl h
            · right
              obtain ⟨x, hx, hxt⟩ := List.mem_map.mp h
              exact List.mem_map.mpr ⟨x, List.mem_cons_of_mem _ hx, hxt⟩

set_option maxRecDepth 4000 in
/-- The spec's paragraph-merge scenario, computed: three 200-character
paragraphs merge into a 401-character node followed by a fresh node. -/
theorem merge_para_example :
    merge_related_content [bigPara 'a', bigPara 'b', bigPara 'c'] =
      [⟨joinSpace [paraText 'a', paraText 'b'], "paragraph", none, []⟩,
       ⟨paraText 'c', "paragraph", none, []⟩] := by
  rw [merge_related_content, if_neg (by decide), if_pos (by decide)]
  have ht : takeParas [(bigPara 'a').text] [bigPara 'b', bigPara 'c'] =
      ([paraText 'a', paraText 'b'], [bigPara 'c']) := by decide
  rw [ht]
  rw [merge_related_content, if_neg (by decide), if_pos (by decide)]
  have ht2 : takeParas [(bigPara 'c').text] ([] : List CNode) =
      ([paraText 'c'], []) := rfl
  rw [ht2]
  rw [merge_related_content]
  simp [joinSpace]

/-- If a line contains `'@'`, the alphabetic clause of the name rule fails:
`'@'` survives both `replace` calls and is not alphabetic. -/
theorem nameRule_false_of_nonalpha_char {cs : List Char} {c : Char}
    (hmem : c ∈ cs) (hsp : c ≠ ' ') (hdot : c ≠ '.')
    (halpha : c.isAlpha = false) :
    nameRule cs false = false := by
  have h1 : c ∈ (cs.filter (fun c => c ≠ ' ')).filter (fun c => c ≠ '.') := by
    refine List.mem_filter.mpr ⟨List.mem_filter.mpr ⟨hmem, ?_⟩, ?_⟩ <;>
      simpa
  have h2 : pyIsAlphaStr ((cs.filter (fun c => c ≠ ' ')).filter
      (fun c => c ≠ '.')) = false := by
    unfold pyIsAlphaStr
    have hall : ((cs.filter (fun c => c ≠ ' ')).filter
        (fun c => c ≠ '.')).all Char.isAlpha = false :=
      List.all_eq_false.mpr ⟨c, h1, by simp [halpha]⟩
    rw [hall, Bool.and_false]
  unfold nameRule
  rw [h2]
  simp only [Bool.false_and, Bool.and_false, Bool.or_false, Bool.false_or]

/-! ## Claims -/

/-- C5: the line "EDUCATION" (all caps, not the first line) classifies as
`section_header` — the name rule fails because `istitle()` is false for an
all-caps word — and `get_heading_level` assigns level 1 to it because its
text contains "education". -/
theorem education_is_section_header_level_one :
    classify_resume_line "EDUCATION" false = "section_header" ∧
      get_heading_level "EDUCATION" = 1 := by
  constructor <;> rfl

/-- C6: `classify_resume_line` is total — it is a pure chain of boolean
tests with a final default, so for every line text and every value of the
is-first-line flag it returns exactly one value, and that value is drawn
from the enumerated type set (it only ever uses seven of the nine names). -/
theorem classify_resume_line_total (line : String) (is_first_line : Bool) :
    classify_resume_line line is_first_line ∈
      ["name", "contact", "section_header", "job_title", "company_date",
       "list_item", "numbered_item", "paragraph", "table"] := by
  unfold classify_resume_line classifyCore
  repeat' split
  all_goals decide

/-- C1 counterexample: the spec's example line "Acme Solutions —
2021-Present" does NOT classify as `company_date`: it contains a digit and
has only 4 whitespace-separated words, so the earlier contact rule
(`any(char.isdigit(...)) and len(line.split()) <= 8`) captures it first. -/
theorem acme_solutions_line_is_contact :
    classify_resume_line "Acme Solutions — 2021-Present" false = "contact" ∧
      classify_resume_line "Acme Solutions — 2021-Present" false ≠
        "company_date" := by
  constructor
  · rfl
  · decide

/-- C2 counterexample: the spec's example line "• Led a team of 5
engineers" does NOT classify as `list_item`: it contains the digit '5' and
has 7 words, so the earlier contact rule captures it first. -/
theorem bullet_team_line_is_contact :
    classify_resume_line "• Led a team of 5 engineers" false = "contact" ∧
      classify_resume_line "• Led a team of 5 engineers" false ≠
        "list_item" := by
  constructor
  · rfl
  · decide

/-- C4 counterexample: a line containing "@" does NOT classify as `contact`
for every value of the is-first-line flag: when the flag is true the name
rule fires first and returns `name`. -/
theorem at_sign_first_line_is_name :
    classify_resume_line "john@example.com" true = "name" ∧
      classify_resume_line "john@example.com" true ≠ "contact" := by
  constructor
  · rfl
  · decide

/-- C8: when extraction yields zero usable lines for the whole document
(the pdfplumber pass returns `None` or an empty list, and the PyMuPDF
fallback likewise), `convert_pdf_to_word` returns the failure dict whose
error reports that no text was extracted; the embedded control flow is a
total function (no exception) and the Word writer is never invoked, so no
output document is produced. -/
theorem convert_empty_extraction_reports_no_content
    (plumber : Option (List CNode)) (pymupdf : Option (List String))
    (writerOk : Bool)
    (hp : plumber = none ∨ plumber = some [])
    (hm : pymupdf = none ∨ pymupdf = some []) :
    convert_pdf_to_word true plumber pymupdf writerOk =
      ⟨false, "No text found in PDF. The PDF may be image-based or encrypted.",
       false⟩ := by
  rcases hp with hp | hp <;> rcases hm with hm | hm <;> subst hp <;>
    subst hm <;> rfl

/-- C8 witness: the empty-extraction theorem applied at a concrete input. -/
theorem convert_empty_extraction_witness :
    convert_pdf_to_word true (some []) none true =
      ⟨false, "No text found in PDF. The PDF may be image-based or encrypted.",
       false⟩ :=
  convert_empty_extraction_reports_no_content (some []) none true
    (Or.inr rfl) (Or.inl rfl)

/-- C9: every ContentNode that reaches the Word-document writer has trimmed
text longer than 8 characters — the extraction step keeps only stripped
lines of length at least 5, and `convert_pdf_to_word` additionally filters
the merged items down to those whose stripped text has length greater
than 8 before handing them to `create_word_document`. -/
theorem writer_input_min_text_length :
    (∀ (lines : List String) (t : String),
        t ∈ extract_kept_lines lines → 5 ≤ t.toList.length) ∧
    (∀ (content : List CNode) (item : CNode),
        item ∈ meaningful_filter content →
          8 < (pyStrip item.text.toList).length) := by
  constructor
  · intro lines t ht
    have h := List.of_mem_filter ht
    simp only [Bool.and_eq_true, Bool.not_eq_true', decide_eq_false_iff_not,
      Nat.not_lt] at h
    exact h.2
  · intro content item hi
    have h := List.of_mem_filter hi
    simpa using h

/-- C9 witness: the minimum-length theorem applied at concrete inputs. -/
theorem writer_input_min_text_length_witness :
    5 ≤ ("hello" : String).toList.length ∧
      8 < (pyStrip ("Led a team of engineers" : String).toList).length :=
  ⟨writer_input_min_text_length.1 ["hello"] "hello" (by decide),
   writer_input_min_text_length.2
     [⟨"Led a team of engineers", "paragraph", none, []⟩]
     ⟨"Led a team of engineers", "paragraph", none, []⟩ (by decide)⟩

/-- C4 amended: for every NON-FIRST line containing "@",
`classify_resume_line` returns `contact` — the contact rule precedes the
job-title rule, and the name rule cannot fire because "@" survives the
`replace` calls and fails `isalpha()`.  (A first line always returns
`name` instead, see the counterexample.) -/
theorem at_sign_nonfirst_line_is_contact (line : String)
    (h : '@' ∈ line.toList) :
    classify_resume_line line false = "contact" := by
  have hname : nameRule line.toList false = false :=
    nameRule_false_of_nonalpha_char h (by decide) (by decide) (by decide)
  have hcontact : contactRule line.toList = true := by
    unfold contactRule contactIndicator
    have hm : '@' ∈ pyLower line.toList := by
      unfold pyLower
      exact List.mem_map.mpr ⟨'@', h, by decide⟩
    have hsub : isSubstring "@".toList (pyLower line.toList) = true :=
      isSubstring_singleton_of_mem hm
    simp only [List.any_cons]
    rw [hsub]
    simp
  unfold classify_resume_line classifyCore
  rw [hname, hcontact]
  simp

/-- C4 amended witness: a line with both "@" and a job-title keyword
classifies as `contact`. -/
theorem at_sign_nonfirst_line_is_contact_witness :
    classify_resume_line "developer@acme.com" false = "contact" :=
  at_sign_nonfirst_line_is_contact "developer@acme.com" (by decide)

/-- C1 amended: a non-first line containing a year 2015-2024 and an
organizational/temporal keyword classifies as `company_date` only when no
earlier rule captures it; since the year puts a digit in the line, the
line must in particular have more than 8 words (else the contact rule
fires) and must contain no contact indicator and no section or job-title
keyword.  The spec's example line fails this, see the counterexample. -/
theorem company_date_when_no_earlier_rule (line : String)
    (hyear : companyDateRule line.toList = true)
    (hwords : 8 < (pySplit line.toList).length)
    (hind : contactIndicator line.toList = false)
    (hsec : sectionRule line.toList = false)
    (hjob : jobTitleRule line.toList = false) :
    classify_resume_line line false = "company_date" := by
  have hname : nameRule line.toList false = false := by
    unfold nameRule
    have h3 : decide ((pySplit line.toList).length ≤ 3) = false := by
      simp only [decide_eq_false_iff_not, Nat.not_le]
      omega
    rw [h3]
    simp
  have hcontact : contactRule line.toList = false := by
    unfold contactRule
    have h8 : decide ((pySplit line.toList).length ≤ 8) = false := by
      simp only [decide_eq_false_iff_not, Nat.not_le]
      omega
    rw [hind, h8]
    simp
  unfold classify_resume_line classifyCore
  rw [hname, hcontact, hsec, hjob, hyear]
  simp

/-- C1 amended witness: a 13-word line containing "Solutions" and "2021"
classifies as `company_date`. -/
theorem company_date_when_no_earlier_rule_witness :
    classify_resume_line
      "Acme Solutions delivered many large contracts for clients worldwide during 2021 and beyond"
      false = "company_date" :=
  company_date_when_no_earlier_rule _ (by decide) (by decide) (by decide)
    (by decide) (by decide)

/-- C2 amended: a non-first line whose left-stripped text starts with a
bullet glyph from the CODE's set {•, -, *, ▪, ◦} (the glyphs ▫, ‣, ⁃ of
the claimed set are not recognized by `classify_resume_line`) classifies
as `list_item` only when no earlier rule captures it — in particular, a
bullet line containing a digit and at most 8 words is captured by the
contact rule first, as the spec's own example shows (see the
counterexample).  The name rule can never fire on such a line because the
bullet glyph fails `isalpha()`. -/
theorem list_item_when_no_earlier_rule (line : String)
    (hbullet : listItemRule line.toList = true)
    (hcontact : contactRule line.toList = false)
    (hsec : sectionRule line.toList = false)
    (hjob : jobTitleRule line.toList = false)
    (hcomp : companyDateRule line.toList = false) :
    classify_resume_line line false = "list_item" := by
  have hname : nameRule line.toList false = false := by
    unfold listItemRule at hbullet
    rcases hps : pyLStrip line.toList with _ | ⟨c, rest⟩
    · rw [hps] at hbullet
      simp at hbullet
    · rw [hps] at hbullet
      simp only [decide_eq_true_eq] at hbullet
      have hcmem : c ∈ line.toList := by
        have hmem0 : c ∈ pyLStrip line.toList := by
          rw [hps]; exact List.mem_cons_self _ _
        exact (List.dropWhile_suffix _).subset hmem0
      rcases List.mem_cons.mp hbullet with rfl | hb
      · exact nameRule_false_of_nonalpha_char hcmem (by decide) (by decide)
          (by decide)
      rcases List.mem_cons.mp hb with rfl | hb
      · exact nameRule_false_of_nonalpha_char hcmem (by decide) (by decide)
          (by decide)
      rcases List.mem_cons.mp hb with rfl | hb
      · exact nameRule_false_of_nonalpha_char hcmem (by decide) (by decide)
          (by decide)
      rcases List.mem_cons.mp hb with rfl | hb
      · exact nameRule_false_of_nonalpha_char hcmem (by decide) (by decide)
          (by decide)
      rcases List.mem_cons.mp hb with rfl | hb
      · exact nameRule_false_of_nonalpha_char hcmem (by decide) (by decide)
          (by decide)
      · cases hb
  unfold classify_resume_line classifyCore
  rw [hname, hcontact, hsec, hjob, hcomp, hbullet]
  simp

set_option maxRecDepth 4000 in
/-- C3 counterexample: two adjacent 250-character `contact` nodes merge
into a single node of 501 characters, so the claim that every merge is
bounded below 500 characters is false — the bound only guards paragraph
merges. -/
theorem merge_contact_unbounded_counterexample :
    (merge_related_content [bigContact, bigContact]).map
      (fun n => (n.type, n.text.length)) = [("contact", 501)] := by
  rw [merge_related_content, if_pos (by decide)]
  have h1 : [bigContact].takeWhile (fun m => m.type = "contact") =
      [bigContact] := by decide
  have h2 : [bigContact].dropWhile (fun m => m.type = "contact") =
      ([] : List CNode) := by decide
  have h0 : merge_related_content ([] : List CNode) = [] := by
    simp [merge_related_content]
  rw [h1, h2, h0]
  decide

/-- C3 amended: adjacent `paragraph` nodes merge under the 500-character
bound (every multi-line merged paragraph stays under 500 characters, and a
line that would reach the bound starts a new node, as the concrete
200+200+200 scenario shows); adjacent `contact` nodes merge WITHOUT any
length bound (see the counterexample); and nodes of every other type pass
through unmerged, one node per source line, in their original order. -/
theorem merge_related_content_amended :
    (∀ l : List CNode,
        (merge_related_content l).filter otherType = l.filter otherType) ∧
    (∀ (l : List CNode) (n : CNode), n ∈ merge_related_content l →
        n.type = "paragraph" →
        n.text.length < 500 ∨ n.text ∈ l.map CNode.text) ∧
    merge_related_content [bigPara 'a', bigPara 'b', bigPara 'c'] =
      [⟨joinSpace [paraText 'a', paraText 'b'], "paragraph", none, []⟩,
       ⟨paraText 'c', "paragraph", none, []⟩] :=
  ⟨merge_filter_other, merge_paragraph_bound, merge_para_example⟩

/-- C3 amended witness: the pass-through part applied to a concrete
section-header node, and the paragraph bound applied to the first merged
node of the concrete scenario. -/
theorem merge_related_content_amended_witness :
    (merge_related_content [⟨"T1", "section_header", some 1, []⟩]).filter
        otherType =
      [⟨"T1", "section_header", some 1, []⟩].filter otherType ∧
    ((⟨joinSpace [paraText 'a', paraText 'b'], "paragraph", none, []⟩ :
        CNode).text.length < 500 ∨
      (⟨joinSpace [paraText 'a', paraText 'b'], "paragraph", none, []⟩ :
        CNode).text ∈
        [bigPara 'a', bigPara 'b', bigPara 'c'].map CNode.text) :=
  ⟨merge_related_content_amended.1 _,
   merge_related_content_amended.2.1 [bigPara 'a', bigPara 'b', bigPara 'c'] _
     (by rw [merge_related_content_amended.2.2]; exact List.mem_cons_self _ _)
     rfl⟩

/-- C10: `merge_related_content` is idempotent.  After one pass no two
adjacent `contact` nodes remain (the contact run was consumed greedily),
and any two adjacent `paragraph` nodes in the output have a joined length
of at least 500 characters (the second node was started precisely because
joining its first line would have reached the bound, and its text only
grew from there), so a second pass merges nothing and rebuilds every node
unchanged. -/
theorem merge_related_content_idempotent :
    ∀ l : List CNode,
      merge_related_content (merge_related_content l) =
        merge_related_content l := by
  suffices H : ∀ (k : Nat) (l : List CNode), l.length ≤ k →
      merge_related_content (merge_related_content l) =
        merge_related_content l by
    intro l
    exact H l.length l le_rfl
  intro k
  induction k with
  | zero =>
    intro l hl
    have hnil : l = [] := List.length_eq_zero.mp (Nat.le_zero.mp hl)
    subst hnil
    simp [merge_related_content]
  | succ k ih =>
    intro l hl
    cases l with
    | nil => simp [merge_related_content]
    | cons n rest =>
      simp only [List.length_cons, Nat.succ_le_succ_iff] at hl
      by_cases hc : n.type = "contact"
      · have hstep : merge_related_content (n :: rest) =
            ⟨joinSpace (n.text :: (rest.takeWhile
              (fun m => m.type = "contact")).map CNode.text),
              "contact", none, []⟩ ::
              merge_related_content
                (rest.dropWhile (fun m => m.type = "contact")) := by
          rw [merge_related_content, if_pos hc]
        have hheads : ∀ x xs,
            merge_related_content
              (rest.dropWhile (fun m => m.type = "contact")) = x :: xs →
            x.type ≠ "contact" := by
          intro x xs hm
          have h1 := merge_head_type
            (rest.dropWhile (fun m => m.type = "contact"))
          rw [hm] at h1
          cases hr : rest.dropWhile (fun m => m.type = "contact") with
          | nil =>
            rw [hr] at hm
            simp [merge_related_content] at hm
          | cons y ys =>
            rw [hr] at h1
            simp only [List.head?_cons, Option.map_some'] at h1
            have hy := dropWhile_head_not (fun m => m.type = "contact") rest y
              (by rw [hr]; rfl)
            simp only [decide_eq_false_iff_not] at hy
            rw [Option.some_inj.mp h1]
            exact hy
        rw [hstep, merge_cons_contact_alone _ _ rfl hheads,
          ih _ (le_trans (List.dropWhile_suffix _).length_le hl)]
      · by_cases hp : n.type = "paragraph"
        · have hstep : merge_related_content (n :: rest) =
              ⟨joinSpace (takeParas [n.text] rest).1, "paragraph", none, []⟩ ::
                merge_related_content (takeParas [n.text] rest).2 := by
            rw [merge_related_content, if_neg hc, if_pos hp]
          have hfstne : (takeParas [n.text] rest).1 ≠ [] := by
            obtain ⟨pre, -, -, hfst⟩ := takeParas_split [n.text] rest
            rw [hfst]
            simp
          have hTP : takeParas
              [(⟨joinSpace (takeParas [n.text] rest).1, "paragraph", none, []⟩
                : CNode).text]
              (merge_related_content (takeParas [n.text] rest).2) =
              ([(⟨joinSpace (takeParas [n.text] rest).1, "paragraph", none, []⟩
                : CNode).text],
               merge_related_content (takeParas [n.text] rest).2) := by
            cases hm : merge_related_content (takeParas [n.text] rest).2 with
            | nil => rfl
            | cons x xs =>
              rw [takeParas, if_neg]
              rcases takeParas_stop [n.text] rest with hstop | hstop
              · rw [hstop] at hm
                simp [merge_related_content] at hm
              · obtain ⟨r, rs, hr2, hnot⟩ := hstop
                rw [hr2] at hm
                by_cases hrp : r.type = "paragraph"
                · obtain ⟨hxp, hxlen⟩ := merge_para_head_ge r rs hrp x xs hm
                  intro hcond
                  apply hnot
                  refine ⟨hrp, ?_⟩
                  have hlen1 : (joinSpace ((takeParas [n.text] rest).1 ++
                      [r.text])).length =
                      (joinSpace (takeParas [n.text] rest).1).length + 1 +
                        r.text.length :=
                    joinSpace_length_append _ _ hfstne
                  have hlen2 : (joinSpace
                      ([(⟨joinSpace (takeParas [n.text] rest).1, "paragraph",
                        none, []⟩ : CNode).text] ++ [x.text])).length =
                      (joinSpace (takeParas [n.text] rest).1).length + 1 +
                        x.text.length := by
                    rw [joinSpace_length_append _ _ (by simp)]
                    rfl
                  rw [hlen2] at hcond
                  rw [hlen1]
                  omega
                · have h1 := merge_head_type (r :: rs)
                  rw [hm] at h1
                  simp only [List.head?_cons, Option.map_some'] at h1
                  intro hcond
                  exact hrp (Option.some_inj.mp h1 ▸ hcond.1)
          have hlen : (takeParas [n.text] rest).2.length ≤ rest.length := by
            obtain ⟨pre, hsplit, -, -⟩ := takeParas_split [n.text] rest
            have := congrArg List.length hsplit
            rw [List.length_append] at this
            omega
          rw [hstep, merge_cons_para_alone _ _ rfl hTP,
            ih _ (le_trans hlen hl)]
        · have hstep : merge_related_content (n :: rest) =
              n :: merge_related_content rest := by
            rw [merge_related_content, if_neg hc, if_neg hp]
          rw [hstep, merge_related_content, if_neg hc, if_neg hp, ih _ hl]

/-- C2 amended witness: a digit-free bullet line with no keyword
classifies as `list_item`. -/
theorem list_item_when_no_earlier_rule_witness :
    classify_resume_line
      "• Led the team and coordinated work across regional offices"
      false = "list_item" :=
  list_item_when_no_earlier_rule _ (by decide) (by decide) (by decide)
    (by decide) (by decide)

/-- When every size attribute present is positive, Python's truthiness
filter on sizes keeps exactly the present sizes. -/
theorem truthySizes_eq_filterMap_size (cs : List PdfChar)
    (h : ∀ c ∈ cs, 0 < c.size.getD 1) :
    truthySizes cs = cs.filterMap PdfChar.size := by
  induction cs with
  | nil => rfl
  | cons a t ih =>
    have ha := h a (List.mem_cons_self _ _)
    have ht : ∀ c ∈ t, 0 < c.size.getD 1 :=
      fun c hc => h c (List.mem_cons_of_mem _ hc)
    unfold truthySizes at *
    cases hs : a.size with
    | none => simp [List.filterMap_cons, hs, ih ht]
    | some s =>
      rw [hs] at ha
      simp only [Option.getD_some] at ha
      have hne : ¬ s = 0 := by
        intro h0
        rw [h0] at ha
        exact lt_irrefl 0 ha
      simp [List.filterMap_cons, hs, if_neg hne, ih ht]

/-- C7: for every line produced by `extract_formatted_lines` (assuming all
size attributes present on the input characters are positive, so that
Python's truthiness test on a size never discards a present value), the
line's `font_size` is the arithmetic mean of the size attributes present
among the characters grouped into that line, and 12 when none of those
characters carries a size attribute. -/
theorem extract_formatted_lines_font_size (chars : List PdfChar)
    (hpos : ∀ c ∈ chars, 0 < c.size.getD 1) :
    ∀ l ∈ extract_formatted_lines chars,
      l.font_size = meanSizeOfChars (lineCharsAt chars l.y_position) := by
  intro l hl
  unfold extract_formatted_lines at hl
  by_cases hc : chars.isEmpty
  · rw [if_pos hc] at hl
    cases hl
  · rw [if_neg hc] at hl
    obtain ⟨y, _, rfl⟩ := List.mem_map.mp hl
    show (mkLine chars y).font_size = _
    have hgy : (mkLine chars y).y_position = y := rfl
    rw [hgy]
    have hG : ∀ c ∈ lineCharsAt chars y, 0 < c.size.getD 1 :=
      fun c hc' => hpos c (List.mem_filter.mp hc').1
    have hperm : List.Perm (truthySizes (sortedLineCharsAt chars y))
        ((lineCharsAt chars y).filterMap PdfChar.size) := by
      have h1 : List.Perm (sortedLineCharsAt chars y) (lineCharsAt chars y) :=
        List.perm_insertionSort _ _
      have h2 : List.Perm (truthySizes (sortedLineCharsAt chars y))
          (truthySizes (lineCharsAt chars y)) := h1.filterMap _
      rw [truthySizes_eq_filterMap_size _ hG] at h2
      exact h2
    show (if (truthySizes (sortedLineCharsAt chars y)).isEmpty then 12
      else (truthySizes (sortedLineCharsAt chars y)).sum /
        (truthySizes (sortedLineCharsAt chars y)).length) =
      meanSizeOfChars (lineCharsAt chars y)
    unfold meanSizeOfChars
    have hlen := hperm.length_eq
    have hsum := hperm.sum_eq
    have hempty : (truthySizes (sortedLineCharsAt chars y)).isEmpty =
        ((lineCharsAt chars y).filterMap PdfChar.size).isEmpty := by
      rcases hcase : (lineCharsAt chars y).filterMap PdfChar.size with _ | ⟨a, t⟩
      · rw [hcase] at hperm
        rw [List.Perm.eq_nil hperm]
      · rw [hcase] at hlen
        rcases hx : truthySizes (sortedLineCharsAt chars y) with _ | ⟨b, s⟩
        · rw [hx] at hlen
          simp at hlen
        · simp
    rw [hempty, hsum, hlen]

/-- The grouping key of the witness characters on the first line. -/
theorem round1_one : round1 1 = 1 := by
  unfold round1 pyRound0
  norm_num

/-- C7 witness: the font-size theorem applied to `witnessChars` at the
line grouped at coordinate 1 (its `font_size` is the mean (10+14)/2 = 12
of the sizes present there). -/
theorem extract_formatted_lines_font_size_witness :
    (mkLine witnessChars 1).font_size =
      meanSizeOfChars (lineCharsAt witnessChars
        (mkLine witnessChars 1).y_position) := by
  have hmem : mkLine witnessChars 1 ∈ extract_formatted_lines witnessChars := by
    unfold extract_formatted_lines
    rw [if_neg (by decide)]
    refine List.mem_map.mpr ⟨1, ?_, rfl⟩
    have hperm := List.perm_insertionSort (fun a b : ℚ => b ≤ a)
      ((witnessChars.map (fun c => round1 c.y0)).dedup)
    rw [hperm.mem_iff, List.mem_dedup]
    exact List.mem_map.mpr
      ⟨⟨"A", 1, 0, some 10, some "Calibri-Bold"⟩,
       List.mem_cons_self _ _, round1_one⟩
  have hpos : ∀ c ∈ witnessChars, 0 < c.size.getD 1 := by
    intro c hc
    fin_cases hc <;> norm_num
  exact extract_formatted_lines_font_size witnessChars hpos _ hmem

end PdfMaster
